import Mathlib

/-!
Verification of the VideoSplitter core pipeline
(`src/core/split_plan.py`, `src/core/ffprobe.py`, `src/core/utils.py`,
`src/core/splitter.py`) against its natural-language specification.

Shallow embedding conventions:
* Python floats are modelled as rationals (`Rat`); Python ints as `Int`/`Nat`.
* `int(x)` on a float truncates toward zero: modelled by `pyTrunc`.
* Raised exceptions are modelled with `Except`.
* External processes (ffmpeg / ffprobe) are opaque: their observable
  behaviour for one invocation (lines emitted, exit code, files created) is
  supplied as environment data, and the control flow of the Python code is
  embedded faithfully over that data.
-/

namespace VideoSplitter

/-- `utils.GB_IN_BYTES = 1024 ** 3`. -/
def GB_IN_BYTES : Int := 1024 ^ 3

/-- `utils.AUDIO_BITRATE = 128_000` (bits per second). -/
def AUDIO_BITRATE : Int := 128000

/-- `utils.MIN_VIDEO_BITRATE = 200_000` (bits per second). -/
def MIN_VIDEO_BITRATE : Int := 200000

/-- Python `int(x)` applied to a float/rational: truncation toward zero. -/
def pyTrunc (q : Rat) : Int :=
  Int.tdiv q.num q.den

/-- The split plan returned by `make_plan`: the dict
`{"parts": parts, "segment_time": segment_time}`. -/
structure SplitPlan where
  parts : Int
  segment_time : Rat
  deriving Repr, DecidableEq

/-- `split_plan.make_plan(duration_sec, size_bytes, max_gb, max_min)`.
Raised `ValueError`s are modelled as `Except.error` carrying the message. -/
def make_plan (duration_sec : Rat) (size_bytes : Int) (max_gb : Rat)
    (max_min : Rat) : Except String SplitPlan :=
  if duration_sec ≤ 0 then .error "Video duration must be positive."
  else if size_bytes ≤ 0 then .error "Video size must be positive."
  else if max_gb ≤ 0 then .error "Maximum size (GB) must be greater than zero."
  else if max_min ≤ 0 then
    .error "Maximum duration (minutes) must be greater than zero."
  else
    let max_bytes : Rat := max_gb * (GB_IN_BYTES : Rat)
    let max_seconds : Rat := max_min * 60
    let size_parts : Int := if max_bytes > 0 then ⌈(size_bytes : Rat) / max_bytes⌉ else 1
    let time_parts : Int := if max_seconds > 0 then ⌈duration_sec / max_seconds⌉ else 1
    let parts : Int := max (max size_parts time_parts) 1
    let segment_time : Rat := max (duration_sec / (parts : Rat)) 1
    .ok ⟨parts, segment_time⟩

/-! ## MediaProbe numeric extraction (`ffprobe.py`) -/

/-- A JSON field value as seen by `_parse_float` / `_parse_int`: either a
value Python's `float()` accepts (a number, or a numeric string), carrying
the rational it denotes, or anything else (`None`, a non-numeric string, a
list, ...), on which `float()` raises. -/
inductive FVal where
  | num (q : Rat)
  | nonNum
  deriving Repr, DecidableEq

/-- `ffprobe._parse_float(value, default=0.0)`: `float(value)` with every
`TypeError`/`ValueError` mapped to the default `0.0`.  A missing field
(`dict.get` returning `None`) is `none`. -/
def parse_float (v : Option FVal) : Rat :=
  match v with
  | some (.num q) => q
  | _ => 0

/-- `ffprobe._parse_int(value, default=0)`: `int(float(value))` with every
`TypeError`/`ValueError` mapped to the default `0`. -/
def parse_int (v : Option FVal) : Int :=
  match v with
  | some (.num q) => pyTrunc q
  | _ => 0

/-- The `for stream in streams:` fallback loop of `probe`: each iteration
overwrites `duration` with the parsed per-stream value and breaks on the
first strictly positive one; if none is positive the last parsed value (or
the incoming one, for an empty list) remains. -/
def streamScan (d : Rat) : List (Option FVal) → Rat
  | [] => d
  | s :: rest =>
      let d' := parse_float s
      if 0 < d' then d' else streamScan d' rest

/-- The numeric part of the metadata dict returned by `ffprobe.probe`. -/
structure ProbeMeta where
  duration : Rat
  size_bytes : Int
  bit_rate : Int
  deriving Repr, DecidableEq

/-- The numeric-extraction section of `ffprobe.probe` (lines 58–69): given
the `format` record's `duration`, `size` and `bit_rate` fields and the
`duration` fields of the `streams` array, compute the returned
`duration` / `size_bytes` / `bit_rate`. -/
def probe_extract (fmt_duration fmt_size fmt_bit_rate : Option FVal)
    (stream_durations : List (Option FVal)) : ProbeMeta :=
  let duration := parse_float fmt_duration
  let size_bytes := parse_int fmt_size
  let bit_rate := parse_int fmt_bit_rate
  let bit_rate :=
    if bit_rate ≤ 0 ∧ 0 < duration ∧ 0 < size_bytes then
      pyTrunc ((size_bytes : Rat) * 8 / duration)
    else bit_rate
  let duration :=
    if duration ≤ 0 then streamScan duration stream_durations else duration
  ⟨duration, size_bytes, bit_rate⟩

/-! ## ProcessRunner (`utils.run_command`)

An external process invocation is opaque: the environment supplies the
bytes/lines it emits, its exit code, and whether it exits within the
5-second grace window after `terminate()`.  Raised exceptions are the
`Except.error` cases of `RunError`. -/

/-- Exceptions raised by the core pipeline:
`RuntimeError("Failed to decode stdout ...")`, `CalledProcessError`,
`OperationCancelled`, and probe-stage failures
(`FileNotFoundError` / `RuntimeError("ffprobe returned invalid JSON.")`). -/
inductive RunError where
  | decodeError
  | processFailed (code : Int)
  | cancelled
  | probeInvalid
  deriving Repr, DecidableEq

/-- A chunk of process output bytes, described by how it decodes under the
selected text encoding: `strict` is `some s` when a strict decode succeeds
and `none` when it raises `UnicodeDecodeError`; `replaced` is the decode
with `errors="replace"`, which always succeeds (substituting U+FFFD
replacement characters where needed). -/
structure Decoded where
  strict : Option String
  replaced : String
  deriving Repr, DecidableEq

/-- Captured mode of `utils.run_command` (`capture_output=True`,
lines 118–146).  The decode uses `errors="strict" if text_encoding else
"replace"`; a strict failure raises the decode `RuntimeError`; a non-zero
exit raises `CalledProcessError`; otherwise the decoded stdout is
returned.  Only the presence of `text_encoding` matters here: the selected
codec's effect on these stdout bytes is `stdoutDec`. -/
def run_command_captured (text_encoding : Option String)
    (stdoutDec : Decoded) (returncode : Int) : Except RunError String :=
  let decoded : Except RunError String :=
    if text_encoding.isSome then
      match stdoutDec.strict with
      | some s => .ok s
      | none => .error .decodeError
    else .ok stdoutDec.replaced
  match decoded with
  | .error e => .error e
  | .ok stdout_text =>
      if returncode ≠ 0 then .error (.processFailed returncode)
      else .ok stdout_text

/-- Observable actions of streaming mode: a line logged to the sink (after
decoding with `errors="replace"`), the cancellation warning,
`proc.terminate()`, `proc.wait(timeout=5)`, `proc.kill()`. -/
inductive StreamAct where
  | logLine (s : String)
  | warnCancel
  | terminate
  | waitGrace (seconds : Nat)
  | kill
  deriving Repr, DecidableEq

/-- `cancel_event and cancel_event.is_set()` at the check that follows
line `i`: `none` models passing no cancel event. -/
def isSet (cancel : Option (Nat → Bool)) (i : Nat) : Bool :=
  match cancel with
  | some f => f i
  | none => false

/-- The `for line in proc.stdout:` loop of streaming mode (lines 159–168):
each line is decoded with `errors="replace"` and logged; then the
cancellation signal is polled, and if set the runner terminates, waits up
to 5 seconds, kills on timeout, and raises `OperationCancelled`.  Returns
the actions performed and the raised error, if any. -/
def streamLoop (cancel : Option (Nat → Bool)) (exitsWithinGrace : Bool) :
    Nat → List Decoded → List StreamAct × Option RunError
  | _, [] => ([], none)
  | i, d :: rest =>
      if isSet cancel i then
        (.logLine d.replaced :: .warnCancel :: .terminate :: .waitGrace 5 ::
            (if exitsWithinGrace then [] else [.kill]),
          some .cancelled)
      else
        let p := streamLoop cancel exitsWithinGrace (i + 1) rest
        (.logLine d.replaced :: p.1, p.2)

/-- Streaming mode of `utils.run_command` (`capture_output=False`,
lines 148–172): run the line loop; if it raised, propagate; otherwise
`proc.wait()` and raise `CalledProcessError` on a non-zero exit,
returning `None` (here `Unit`) on success. -/
def run_command_stream (cancel : Option (Nat → Bool)) (lines : List Decoded)
    (exitCode : Int) (exitsWithinGrace : Bool) :
    List StreamAct × Except RunError Unit :=
  let p := streamLoop cancel exitsWithinGrace 0 lines
  match p.2 with
  | some e => (p.1, .error e)
  | none =>
      if exitCode ≠ 0 then (p.1, .error (.processFailed exitCode))
      else (p.1, .ok ())

/-! ## SizeComplianceEnforcer (`splitter.reencode_oversize`) -/

/-- `utils.gb_to_bytes(value) = int(value * GB_IN_BYTES)`. -/
def gb_to_bytes (value : Rat) : Int :=
  pyTrunc (value * (GB_IN_BYTES : Rat))

/-- `splitter._calculate_bitrate(duration, max_gb, safety_ratio=0.95)`. -/
def calculate_bitrate (duration : Rat) (max_gb : Rat) : Except String Int :=
  if duration ≤ 0 then .error "Segment duration must be positive."
  else
    let target_bytes : Rat := (gb_to_bytes max_gb : Rat) * (95 / 100 : Rat)
    let target_bits : Rat := max (target_bytes * 8) 1
    let video_bits : Rat := target_bits / duration - (AUDIO_BITRATE : Rat)
    .ok (max (pyTrunc video_bits) MIN_VIDEO_BITRATE)

/-- Observable outcome of one ffmpeg encode invocation
(`_encode_with_target_bitrate` / `_encode_with_crf`) on the temp file:
exit 0 with the temp file written (of the given size), exit 0 with no
temp file, a non-zero exit (`run_command` raises `CalledProcessError`),
or mid-stream cancellation (`run_command` raises `OperationCancelled`). -/
inductive EncOutcome where
  | fileMade (size : Int)
  | noFile
  | procFail (code : Int)
  | cancelled
  deriving Repr, DecidableEq

/-- Environment of one part in the enforcement loop: its path, its size
on disk at measure time, the result of probing it, the outcome of the
bitrate-targeted encode, the outcome of each CRF-rung encode, and the
cancellation flag as observed at the start of the part and before each
CRF rung. -/
structure PartEnv where
  path : String
  size : Int
  probeDuration : Except RunError Rat
  bitrateEnc : EncOutcome
  crfEnc : Nat → EncOutcome
  cancelBeforePart : Bool
  cancelBeforeCrf : Nat → Bool

/-- Observable trace of `reencode_oversize`: the returned `final_files`
paths, the `(current, total)` progress events emitted, and the
`tmp_file.replace(file_path)` commits performed (path, new size). -/
structure EnforceTrace where
  finals : List String
  events : List (Nat × Nat)
  commits : List (String × Int)
  deriving Repr, DecidableEq

/-- The `for crf in (23, 26, 28):` fallback ladder (lines 304–330).  Each
rung first checks cancellation, then encodes; a rung that produced no
file is skipped; a rung whose file is within the limit breaks with that
file kept; an oversize rung's file is unlinked before the next rung.
Returns the size of the temp file that exists at loop end, if any. -/
def crfLadder (maxBytes : Int) (env : PartEnv) :
    List Nat → Except RunError (Option Int)
  | [] => .ok none
  | crf :: rest =>
      if env.cancelBeforeCrf crf then .error .cancelled
      else
        match env.crfEnc crf with
        | .cancelled => .error .cancelled
        | .procFail c => .error (.processFailed c)
        | .noFile => crfLadder maxBytes env rest
        | .fileMade s =>
            if s ≤ maxBytes then .ok (some s)
            else crfLadder maxBytes env rest

/-- Append an accepted-as-original part to the trace and emit progress. -/
def acceptOriginal (env : PartEnv) (index total : Nat) (tr : EnforceTrace) :
    EnforceTrace :=
  { tr with
      finals := tr.finals ++ [env.path]
      events := tr.events ++ [(index, total)] }

/-- One iteration of the `for index, file_path in enumerate(...)` loop of
`reencode_oversize` (lines 231–346), mirrored branch by branch:
cancellation check; measure and accept if within limit; probe (probe
errors propagate); accept original when duration is undeterminable;
`_calculate_bitrate` (its `ValueError` branch accepts the original);
bitrate-targeted encode — `OperationCancelled` re-raised after temp
cleanup, `CalledProcessError` uncaught, exit-0-no-file accepts the
original; CRF ladder when still oversize; commit the temp file over the
original when one exists at the end, else keep the original.  Progress is
emitted exactly once on every non-raising path. -/
def processPart (max_gb : Rat) (index total : Nat) (env : PartEnv)
    (tr : EnforceTrace) : Except RunError EnforceTrace :=
  let maxBytes := gb_to_bytes max_gb
  if env.cancelBeforePart then .error .cancelled
  else if env.size ≤ maxBytes then .ok (acceptOriginal env index total tr)
  else
    match env.probeDuration with
    | .error e => .error e
    | .ok duration =>
        if duration ≤ 0 then .ok (acceptOriginal env index total tr)
        else
          match calculate_bitrate duration max_gb with
          | .error _ => .ok (acceptOriginal env index total tr)
          | .ok _target =>
              match env.bitrateEnc with
              | .cancelled => .error .cancelled
              | .procFail c => .error (.processFailed c)
              | .noFile => .ok (acceptOriginal env index total tr)
              | .fileMade new_size =>
                  let tmp : Except RunError (Option Int) :=
                    if maxBytes < new_size then
                      crfLadder maxBytes env [23, 26, 28]
                    else .ok (some new_size)
                  match tmp with
                  | .error e => .error e
                  | .ok (some s) =>
                      .ok { tr with
                              finals := tr.finals ++ [env.path]
                              events := tr.events ++ [(index, total)]
                              commits := tr.commits ++ [(env.path, s)] }
                  | .ok none => .ok (acceptOriginal env index total tr)

/-- The enforcement loop over the remaining parts, threading the trace. -/
def enforceGo (max_gb : Rat) (total : Nat) :
    Nat → List PartEnv → EnforceTrace → Except RunError EnforceTrace
  | _, [], tr => .ok tr
  | index, env :: rest, tr =>
      match processPart max_gb index total env tr with
      | .error e => .error e
      | .ok tr' => enforceGo max_gb total (index + 1) rest tr'

/-- `splitter.reencode_oversize(files, max_gb, ...)`: enumerate the parts
from 1, with `total = len(files_list)`, starting from an empty trace. -/
def reencode_oversize (parts : List PartEnv) (max_gb : Rat) :
    Except RunError EnforceTrace :=
  enforceGo max_gb parts.length 1 parts ⟨[], [], []⟩

/-- A sample already-compliant part, for concrete instantiations. -/
def samplePart (p : String) (sz : Int) : PartEnv :=
  ⟨p, sz, .ok 0, .noFile, fun _ => .noFile, false, fun _ => false⟩

/-- A sample 2 GB part whose every encode attempt (bitrate-targeted and
each CRF rung) writes a 1 500 000 000-byte file — still over a 1 GB
limit: the ladder-exhausted scenario. -/
def ladderPart : PartEnv :=
  ⟨"part00", 2000000000, .ok 10, .fileMade 1500000000,
    fun _ => .fileMade 1500000000, false, fun _ => false⟩

/-- A sample 2 GB part whose bitrate-targeted encode exits 0 but writes
no temporary file. -/
def noFilePart : PartEnv :=
  ⟨"part01", 2000000000, .ok 10, .noFile, fun _ => .noFile, false,
    fun _ => false⟩

/-- A sample 2 GB part whose bitrate-targeted encode exits non-zero. -/
def failPart : PartEnv :=
  ⟨"part02", 2000000000, .ok 10, .procFail 1, fun _ => .noFile, false,
    fun _ => false⟩

/-! ## Theorems -/

/-- `int()` of an integral rational is that integer. -/
theorem pyTrunc_intCast (n : Int) : pyTrunc (n : Rat) = n := by
  simp [pyTrunc, Int.tdiv_one]

/-- `gb_to_bytes(1) = 2^30`. -/
theorem gb_to_bytes_one : gb_to_bytes 1 = 1073741824 := by
  have h : ((GB_IN_BYTES : Int) : Rat) = ((1073741824 : Int) : Rat) := by
    norm_num [GB_IN_BYTES]
  rw [gb_to_bytes, one_mul, h, pyTrunc_intCast]

/-- C1: for every strictly positive `duration_sec`, `size_bytes`,
`max_gb`, `max_min`, the planner returns
`parts = max(ceil(size_bytes / (max_gb * 2^30)), ceil(duration_sec / (max_min * 60)), 1)`
and `segment_time = max(duration_sec / parts, 1.0)`, so
`segment_time ≥ 1.0` always holds; as a Lean function of its four
arguments the result is deterministic in the inputs. -/
theorem make_plan_spec (d : Rat) (s : Int) (g m : Rat)
    (hd : 0 < d) (hs : 0 < s) (hg : 0 < g) (hm : 0 < m) :
    ∃ plan : SplitPlan, make_plan d s g m = .ok plan ∧
      plan.parts = max (max ⌈(s : Rat) / (g * 2 ^ 30)⌉ ⌈d / (m * 60)⌉) 1 ∧
      plan.segment_time = max (d / (plan.parts : Rat)) 1 ∧
      1 ≤ plan.segment_time := by
  have hgb : ((GB_IN_BYTES : Int) : Rat) = 2 ^ 30 := by
    norm_num [GB_IN_BYTES]
  have hmb : (0 : Rat) < g * (GB_IN_BYTES : Rat) := by
    rw [hgb]; positivity
  have hms : (0 : Rat) < m * 60 := by positivity
  refine ⟨⟨max (max ⌈(s : Rat) / (g * 2 ^ 30)⌉ ⌈d / (m * 60)⌉) 1,
      max (d / ((max (max ⌈(s : Rat) / (g * 2 ^ 30)⌉ ⌈d / (m * 60)⌉) 1 : Int) : Rat)) 1⟩,
    ?_, rfl, rfl, le_max_right _ _⟩
  unfold make_plan
  rw [if_neg (not_le.mpr hd), if_neg (not_le.mpr hs), if_neg (not_le.mpr hg),
    if_neg (not_le.mpr hm)]
  have hmb2 : (0 : Rat) < g * 2 ^ 30 := by positivity
  simp only [gt_iff_lt, hgb, if_pos hmb2, if_pos hms]

/-- Witness for C1 at duration 3600 s, size 3 GiB, limits 1 GB and
30 min: the plan is 3 parts of 1200 s. -/
theorem make_plan_spec_witness :
    ∃ plan : SplitPlan, make_plan 3600 (3 * 2 ^ 30) 1 30 = .ok plan ∧
      plan.parts = max (max ⌈((3 * 2 ^ 30 : Int) : Rat) / (1 * 2 ^ 30)⌉
        ⌈(3600 : Rat) / (30 * 60)⌉) 1 ∧
      plan.segment_time = max ((3600 : Rat) / (plan.parts : Rat)) 1 ∧
      1 ≤ plan.segment_time :=
  make_plan_spec 3600 (3 * 2 ^ 30) 1 30 (by norm_num) (by norm_num)
    (by norm_num) (by norm_num)

/-- C7: the planner fails with a `ValueError` (the `InvalidInput` class of
the spec) whenever any one of its four inputs is ≤ 0; the embedding
returns the error before any arithmetic on the inputs is performed. -/
theorem make_plan_invalid (d : Rat) (s : Int) (g m : Rat)
    (h : d ≤ 0 ∨ s ≤ 0 ∨ g ≤ 0 ∨ m ≤ 0) :
    ∃ msg, make_plan d s g m = .error msg := by
  unfold make_plan
  split_ifs with h1 h2 h3 h4
  · exact ⟨_, rfl⟩
  · exact ⟨_, rfl⟩
  · exact ⟨_, rfl⟩
  · exact ⟨_, rfl⟩
  · rcases h with h | h | h | h
    · exact absurd h h1
    · exact absurd h h2
    · exact absurd h h3
    · exact absurd h h4

/-- Witness for C7: size 0 is rejected. -/
theorem make_plan_invalid_witness :
    ∃ msg, make_plan 3600 0 1 30 = .error msg :=
  make_plan_invalid 3600 0 1 30 (Or.inr (Or.inl (by norm_num)))

/-- Arithmetic core of C9: a part count of at least 1 times the floored
segment time covers the duration. -/
theorem parts_mul_cover (d : Rat) (P : Int) (hP : 1 ≤ P) :
    d ≤ (P : Rat) * max (d / (P : Rat)) 1 := by
  have hP0 : (0 : Rat) < (P : Rat) := by
    exact_mod_cast lt_of_lt_of_le Int.zero_lt_one hP
  calc d = (P : Rat) * (d / (P : Rat)) := by
        field_simp
    _ ≤ (P : Rat) * max (d / (P : Rat)) 1 :=
        mul_le_mul_of_nonneg_left (le_max_left _ _) hP0.le

/-- C9: every plan the planner accepts covers the whole input:
`parts * segment_time ≥ duration_sec`. -/
theorem make_plan_covers (d : Rat) (s : Int) (g m : Rat) (p : SplitPlan)
    (h : make_plan d s g m = .ok p) :
    d ≤ (p.parts : Rat) * p.segment_time := by
  unfold make_plan at h
  split_ifs at h
  simp only [Except.ok.injEq] at h
  subst h
  exact parts_mul_cover d _ (le_max_right _ _)

/-- Witness for C9: the 3-part, 1200-second plan covers the 3600-second
input. -/
theorem make_plan_covers_witness :
    (3600 : Rat) ≤ (((3 : Int) : Rat)) * (1200 : Rat) :=
  make_plan_covers 3600 (3 * 2 ^ 30) 1 30 ⟨3, 1200⟩
    (by norm_num [make_plan, GB_IN_BYTES])

/-- The stream-duration fallback loop returns the first strictly positive
parsed per-stream duration, when one exists. -/
theorem streamScan_find (sds : List (Option FVal)) :
    ∀ (d : Rat) (s0 : Option FVal),
      sds.find? (fun s => decide (0 < parse_float s)) = some s0 →
      streamScan d sds = parse_float s0 := by
  induction sds with
  | nil => intro d s0 h; simp [List.find?] at h
  | cons s rest ih =>
      intro d s0 h
      rw [List.find?] at h
      by_cases hp : 0 < parse_float s
      · simp only [hp, decide_True, Option.some.injEq] at h
        subst h
        simp [streamScan, hp]
      · simp only [hp, decide_False] at h
        simp only [streamScan, if_neg hp]
        exact ih _ s0 h

/-- C6: if the format record's declared bit-rate is non-positive but its
duration and size are positive, the returned `bit_rate` is
`int(size * 8 / duration)`; if the format-level duration is non-positive,
the returned `duration` is the first positive per-stream duration found;
and a missing or non-numeric field parses to the default `0.0` / `0`
instead of raising. -/
theorem probe_extract_spec (fd fs fb : Option FVal)
    (sds : List (Option FVal)) (s0 : Option FVal) :
    (parse_int fb ≤ 0 → 0 < parse_float fd → 0 < parse_int fs →
      (probe_extract fd fs fb sds).bit_rate
        = pyTrunc ((parse_int fs : Rat) * 8 / parse_float fd)) ∧
    (parse_float fd ≤ 0 →
      sds.find? (fun s => decide (0 < parse_float s)) = some s0 →
      (probe_extract fd fs fb sds).duration = parse_float s0) ∧
    parse_float none = 0 ∧ parse_int none = 0 ∧
    parse_float (some FVal.nonNum) = 0 ∧ parse_int (some FVal.nonNum) = 0 := by
  refine ⟨?_, ?_, rfl, rfl, rfl, rfl⟩
  · intro hb hd hs
    simp [probe_extract, hb, hd, hs]
  · intro hd hfind
    have hb := streamScan_find sds (parse_float fd) s0 hfind
    simp [probe_extract, if_pos hd, hb]

/-- Witness for C6: with a declared bit-rate of 0, duration 10 s and size
80 bytes the derived bit-rate is 64 bit/s; with a format duration of 0
and streams `[non-numeric, 7]` the returned duration is 7. -/
theorem probe_extract_spec_witness :
    (probe_extract (some (.num 10)) (some (.num 80)) (some (.num 0))
        []).bit_rate = pyTrunc ((80 : Rat) * 8 / 10) ∧
    (probe_extract (some (.num 0)) (some (.num 80)) (some (.num 5))
        [some FVal.nonNum, some (.num 7)]).duration = 7 := by
  constructor
  · have h := (probe_extract_spec (some (.num 10)) (some (.num 80))
        (some (.num 0)) [] none).1
      (by simp [parse_int, pyTrunc]) (by norm_num [parse_float])
      (by simp [parse_int, pyTrunc])
    rw [h]
    norm_num [parse_int, parse_float, pyTrunc]
  · have h := (probe_extract_spec (some (.num 0)) (some (.num 80))
        (some (.num 5)) [some FVal.nonNum, some (.num 7)]
        (some (.num 7))).2.1
      (by norm_num [parse_float])
      (by simp [List.find?, parse_float])
    rw [h]
    simp [parse_float]

/-- Every line logged by the streaming loop is the `errors="replace"`
decode of one of the process's output chunks. -/
theorem streamLoop_log_replaced (cancel : Option (Nat → Bool)) (grace : Bool) :
    ∀ (lines : List Decoded) (n : Nat) (s : String),
      StreamAct.logLine s ∈ (streamLoop cancel grace n lines).1 →
      ∃ d ∈ lines, s = d.replaced := by
  intro lines
  induction lines with
  | nil => intro n s h; simp [streamLoop] at h
  | cons d rest ih =>
      intro n s h
      rw [streamLoop] at h
      by_cases hc : isSet cancel n
      · rw [if_pos hc] at h
        rcases grace with _ | _ <;> simp_all
      · rw [if_neg hc] at h
        simp only [List.mem_cons, StreamAct.logLine.injEq] at h
        rcases h with h | h
        · exact ⟨d, List.mem_cons_self d rest, h⟩
        · obtain ⟨d', hd', hs⟩ := ih (n + 1) s h
          exact ⟨d', List.mem_cons_of_mem d hd', hs⟩

/-- C5 counterexample: `probe`'s own captured call passes no explicit
`text_encoding`, and then captured mode decodes with `errors="replace"`:
on stdout bytes that do not decode strictly it returns the
replacement-substituted text instead of failing with a decode error. -/
theorem run_command_captured_cex :
    (Decoded.mk none "a").strict = none ∧
    run_command_captured none (Decoded.mk none "a") 0 = .ok "a" :=
  ⟨rfl, rfl⟩

/-- C5 (amended): in captured mode, when an explicit `text_encoding` is
selected, undecodable stdout fails with the decode error and no
replacement text is returned; when no encoding is selected (the locale
default), the replacement-substituted text is returned instead of
failing; and in streaming mode every logged line is the
replacement-substituted decode of a process output chunk. -/
theorem run_command_decode_policy (dec : Decoded) (code : Int) :
    (∀ enc : String, dec.strict = none →
      run_command_captured (some enc) dec code = .error .decodeError) ∧
    run_command_captured none dec 0 = .ok dec.replaced ∧
    (∀ (cancel : Option (Nat → Bool)) (grace : Bool) (lines : List Decoded)
      (exitCode : Int) (s : String),
      StreamAct.logLine s ∈ (run_command_stream cancel lines exitCode grace).1 →
      ∃ d ∈ lines, s = d.replaced) := by
  refine ⟨?_, ?_, ?_⟩
  · intro enc h
    simp [run_command_captured, h]
  · simp [run_command_captured]
  · intro cancel grace lines exitCode s h
    have hacts : (run_command_stream cancel lines exitCode grace).1
        = (streamLoop cancel grace 0 lines).1 := by
      rw [run_command_stream]
      rcases (streamLoop cancel grace 0 lines).2 with _ | e
      · by_cases he : exitCode ≠ 0 <;> simp [he]
      · simp
    rw [hacts] at h
    exact streamLoop_log_replaced cancel grace lines 0 s h

/-- Witness for the amended C5. -/
theorem run_command_decode_policy_witness :
    run_command_captured (some "utf-8") (Decoded.mk none "a") 0
      = .error .decodeError ∧
    run_command_captured none (Decoded.mk none "a") 0 = .ok "a" :=
  ⟨(run_command_decode_policy (Decoded.mk none "a") 0).1 "utf-8" rfl,
   (run_command_decode_policy (Decoded.mk none "a") 0).2.1⟩

/-- Cancellation observed after a line in the streaming loop: the loop
stops with the cancelled error, a terminate request and a 5-second
bounded wait are issued, and the kill escalation happens exactly when the
process does not exit within the grace period. -/
theorem streamLoop_cancelled (f : Nat → Bool) (grace : Bool) :
    ∀ (lines : List Decoded) (n : Nat),
      (∃ i, n ≤ i ∧ i < n + lines.length ∧ f i = true) →
      (streamLoop (some f) grace n lines).2 = some .cancelled ∧
      StreamAct.terminate ∈ (streamLoop (some f) grace n lines).1 ∧
      StreamAct.waitGrace 5 ∈ (streamLoop (some f) grace n lines).1 ∧
      (StreamAct.kill ∈ (streamLoop (some f) grace n lines).1 ↔ grace = false) := by
  intro lines
  induction lines with
  | nil =>
      rintro n ⟨i, h1, h2, _⟩
      simp only [List.length_nil, Nat.add_zero] at h2
      omega
  | cons d rest ih =>
      rintro n ⟨i, h1, h2, hf⟩
      by_cases hn : f n = true
      · have hc : isSet (some f) n = true := hn
        rw [streamLoop, if_pos hc]
        rcases grace with _ | _ <;> simp
      · have hc : ¬ isSet (some f) n = true := by simpa [isSet] using hn
        rw [streamLoop, if_neg hc]
        have hne : n ≠ i := by
          rintro rfl; exact hn hf
        have hrec := ih (n + 1)
          ⟨i, by omega, by simp at h2 ⊢; omega, hf⟩
        refine ⟨hrec.1, List.mem_cons_of_mem _ hrec.2.1,
          List.mem_cons_of_mem _ hrec.2.2.1, ?_⟩
        have hkill : (StreamAct.kill = StreamAct.logLine d.replaced) ↔ False := by
          simp
        rw [List.mem_cons, hkill, false_or]
        exact hrec.2.2.2

/-- C4: in streaming mode, whenever the cancellation signal is observed
set after some line of output, the runner terminates the process, waits a
bounded 5-second grace period, kills exactly when the process has not
exited within it, and fails with the cancelled outcome for every value of
the process's own exit status. -/
theorem run_command_stream_cancelled (f : Nat → Bool) (lines : List Decoded)
    (exitCode : Int) (grace : Bool)
    (h : ∃ i, i < lines.length ∧ f i = true) :
    (run_command_stream (some f) lines exitCode grace).2 = .error .cancelled ∧
    StreamAct.terminate ∈ (run_command_stream (some f) lines exitCode grace).1 ∧
    StreamAct.waitGrace 5 ∈ (run_command_stream (some f) lines exitCode grace).1 ∧
    (StreamAct.kill ∈ (run_command_stream (some f) lines exitCode grace).1
      ↔ grace = false) := by
  obtain ⟨i, hi, hf⟩ := h
  have H := streamLoop_cancelled f grace lines 0 ⟨i, Nat.zero_le i, by omega, hf⟩
  rw [run_command_stream]
  rw [H.1]
  exact ⟨rfl, H.2.1, H.2.2.1, H.2.2.2⟩

/-- Witness for C4: one output line with the signal already set; the
process exits within the grace window, so no kill is issued. -/
theorem run_command_stream_cancelled_witness :
    (run_command_stream (some fun _ => true) [Decoded.mk (some "x") "x"] 0
        true).2 = .error .cancelled ∧
    StreamAct.terminate ∈ (run_command_stream (some fun _ => true)
        [Decoded.mk (some "x") "x"] 0 true).1 ∧
    StreamAct.waitGrace 5 ∈ (run_command_stream (some fun _ => true)
        [Decoded.mk (some "x") "x"] 0 true).1 ∧
    (StreamAct.kill ∈ (run_command_stream (some fun _ => true)
        [Decoded.mk (some "x") "x"] 0 true).1 ↔ true = false) :=
  run_command_stream_cancelled (fun _ => true) [Decoded.mk (some "x") "x"] 0
    true ⟨0, by simp, rfl⟩

/-- When the cancellation check after each processed line never sees the
signal set, the streaming loop finishes every line: no error is raised
and the actions are exactly the logged lines. -/
theorem streamLoop_uncancelled (cancel : Option (Nat → Bool)) (grace : Bool) :
    ∀ (lines : List Decoded) (n : Nat),
      (∀ i, n ≤ i → i < n + lines.length → isSet cancel i = false) →
      (streamLoop cancel grace n lines).2 = none ∧
      (streamLoop cancel grace n lines).1
        = lines.map (fun d => .logLine d.replaced) := by
  intro lines
  induction lines with
  | nil => intro n _; simp [streamLoop]
  | cons d rest ih =>
      intro n h
      have hc : ¬ isSet cancel n = true := by
        have := h n (Nat.le_refl n) (by simp)
        simp [this]
      rw [streamLoop, if_neg hc]
      have hrec := ih (n + 1) (fun i h1 h2 => h i (by omega) (by simp at h2 ⊢; omega))
      simp only [List.map_cons]
      exact ⟨hrec.1, by rw [hrec.2]⟩

/-- C10: the cancellation signal is polled only after a line of output;
if no check after a processed line sees it set (in particular when the
process emits no further lines after the signal is set), the process is
never terminated or killed, and the run ends with the process's own
outcome: success, or its own non-zero-exit error. -/
theorem run_command_stream_no_poll (cancel : Option (Nat → Bool))
    (lines : List Decoded) (exitCode : Int) (grace : Bool)
    (h : ∀ i, i < lines.length → isSet cancel i = false) :
    (run_command_stream cancel lines exitCode grace).2
      = (if exitCode ≠ 0 then .error (.processFailed exitCode) else .ok ()) ∧
    StreamAct.terminate ∉ (run_command_stream cancel lines exitCode grace).1 ∧
    StreamAct.kill ∉ (run_command_stream cancel lines exitCode grace).1 := by
  have H := streamLoop_uncancelled cancel grace lines 0
    (fun i _ h2 => h i (by omega))
  have hacts : (run_command_stream cancel lines exitCode grace).1
      = lines.map (fun d => .logLine d.replaced) := by
    rw [run_command_stream, H.1]
    by_cases he : exitCode ≠ 0 <;> simp [he, H.2]
  have hres : (run_command_stream cancel lines exitCode grace).2
      = (if exitCode ≠ 0 then .error (.processFailed exitCode) else .ok ()) := by
    rw [run_command_stream, H.1]
    by_cases he : exitCode ≠ 0 <;> simp [he]
  refine ⟨hres, ?_, ?_⟩ <;> rw [hacts] <;> simp

/-- Witness for C10: the signal is set from the start but the process
emits no lines; it runs to completion and its own non-zero exit surfaces
as the process-failure error, not as cancellation. -/
theorem run_command_stream_no_poll_witness :
    (run_command_stream (some fun _ => true) [] 3 true).2
      = (if (3:Int) ≠ 0 then .error (.processFailed 3) else .ok ()) ∧
    StreamAct.terminate ∉ (run_command_stream (some fun _ => true) [] 3 true).1 ∧
    StreamAct.kill ∉ (run_command_stream (some fun _ => true) [] 3 true).1 :=
  run_command_stream_no_poll (some fun _ => true) [] 3 true
    (fun i hi => by simp at hi)

/-- A part within the byte limit is accepted as-is: one progress event,
original path kept, no commit. -/
theorem processPart_compliant (max_gb : Rat) (index total : Nat)
    (env : PartEnv) (tr : EnforceTrace)
    (hc : env.cancelBeforePart = false)
    (hs : env.size ≤ gb_to_bytes max_gb) :
    processPart max_gb index total env tr
      = .ok (acceptOriginal env index total tr) := by
  rw [processPart]
  simp [hc, hs]

/-- The enforcement loop over all-compliant parts accumulates the paths
in order and one progress event per part, committing nothing. -/
theorem enforceGo_compliant (max_gb : Rat) (total : Nat) :
    ∀ (rest : List PartEnv) (idx : Nat) (tr : EnforceTrace),
      (∀ e ∈ rest, e.cancelBeforePart = false ∧ e.size ≤ gb_to_bytes max_gb) →
      enforceGo max_gb total idx rest tr = .ok
        ⟨tr.finals ++ rest.map (·.path),
         tr.events ++ (List.range' idx rest.length).map (fun i => (i, total)),
         tr.commits⟩ := by
  intro rest
  induction rest with
  | nil => intro idx tr _; simp [enforceGo]
  | cons e rest ih =>
      intro idx tr h
      have he := h e (List.mem_cons_self e rest)
      rw [enforceGo, processPart_compliant max_gb idx total e tr he.1 he.2]
      show enforceGo max_gb total (idx + 1) rest (acceptOriginal e idx total tr)
        = _
      rw [ih (idx + 1) _ (fun x hx => h x (List.mem_cons_of_mem e hx))]
      simp only [acceptOriginal, List.length_cons, List.map_cons,
        List.range'_succ, List.map_cons, List.append_assoc,
        List.cons_append, List.nil_append, Except.ok.injEq]

/-- C8: running `enforce` on N parts that are all already within the
byte limit returns the same N paths in the same order, modifies no file
(no commit), and emits exactly one progress event per part with
`current` taking the values 1..N in increasing order. -/
theorem reencode_oversize_compliant (parts : List PartEnv) (max_gb : Rat)
    (h : ∀ e ∈ parts, e.cancelBeforePart = false ∧
      e.size ≤ gb_to_bytes max_gb) :
    reencode_oversize parts max_gb = .ok
      ⟨parts.map (·.path),
       (List.range' 1 parts.length).map (fun i => (i, parts.length)), []⟩ := by
  rw [reencode_oversize, enforceGo_compliant max_gb parts.length parts 1 _ h]
  simp

/-- Witness for C8: two compliant parts pass through unchanged with
progress (1,2), (2,2). -/
theorem reencode_oversize_compliant_witness :
    reencode_oversize [samplePart "a" 100, samplePart "b" 200] 1
      = .ok ⟨["a", "b"], [(1, 2), (2, 2)], []⟩ := by
  have h := reencode_oversize_compliant
    [samplePart "a" 100, samplePart "b" 200] 1 ?_
  · simpa [samplePart, List.range'] using h
  · intro e he
    simp only [List.mem_cons, List.not_mem_nil, or_false] at he
    rcases he with rfl | rfl
    · exact ⟨rfl, by rw [gb_to_bytes_one]; norm_num [samplePart]⟩
    · exact ⟨rfl, by rw [gb_to_bytes_one]; norm_num [samplePart]⟩

/-- With a positive duration, `_calculate_bitrate` does not raise. -/
theorem calculate_bitrate_isOk (d g : Rat) (h : 0 < d) :
    ∃ k, calculate_bitrate d g = .ok k :=
  ⟨_, by rw [calculate_bitrate, if_neg (not_le.mpr h)]⟩

/-- When every rung of the CRF ladder encodes a file that still exceeds
the byte limit, every such file — the last rung's included — is unlinked,
and the ladder ends with no temporary file. -/
theorem crfLadder_all_oversize (maxB : Int) (env : PartEnv) :
    ∀ rungs : List Nat,
      (∀ c ∈ rungs, env.cancelBeforeCrf c = false) →
      (∀ c ∈ rungs, ∃ s, env.crfEnc c = .fileMade s ∧ maxB < s) →
      crfLadder maxB env rungs = .ok none := by
  intro rungs
  induction rungs with
  | nil => intro _ _; rfl
  | cons c rest ih =>
      intro h1 h2
      obtain ⟨s, hs, hover⟩ := h2 c (List.mem_cons_self c rest)
      rw [crfLadder]
      simp only [h1 c (List.mem_cons_self c rest), Bool.false_eq_true,
        if_false, hs]
      rw [if_neg (not_le.mpr hover)]
      exact ih (fun x hx => h1 x (List.mem_cons_of_mem c hx))
        (fun x hx => h2 x (List.mem_cons_of_mem c hx))

/-- Spine of the per-part state machine for an oversize, probeable part:
after the measure, probe and bitrate-computation steps the behaviour is
decided by the bitrate-encode outcome and, when its file is still
oversize, by the CRF ladder. -/
theorem processPart_oversize (max_gb : Rat) (index total : Nat)
    (env : PartEnv) (tr : EnforceTrace)
    (hc : env.cancelBeforePart = false)
    (hover : gb_to_bytes max_gb < env.size)
    (d : Rat) (hd : env.probeDuration = .ok d) (hdpos : 0 < d) :
    processPart max_gb index total env tr
      = match env.bitrateEnc with
        | .cancelled => .error .cancelled
        | .procFail c => .error (.processFailed c)
        | .noFile => .ok (acceptOriginal env index total tr)
        | .fileMade new_size =>
            match (if gb_to_bytes max_gb < new_size
                then crfLadder (gb_to_bytes max_gb) env [23, 26, 28]
                else .ok (some new_size)) with
            | .error e => .error e
            | .ok (some s) => .ok { tr with
                finals := tr.finals ++ [env.path]
                events := tr.events ++ [(index, total)]
                commits := tr.commits ++ [(env.path, s)] }
            | .ok none => .ok (acceptOriginal env index total tr) := by
  obtain ⟨k, hk⟩ := calculate_bitrate_isOk d max_gb hdpos
  rw [processPart]
  simp only [hc, Bool.false_eq_true, if_false, hd,
    not_le.mpr hover, not_le.mpr hdpos, hk]

/-- C2 (amended): for an oversize part whose bitrate-targeted encode and
every CRF rung all produce files exceeding the byte limit, each
attempt's file — the last rung's included — is discarded: the enforcer
keeps the unmodified original part, commits nothing, and emits the
part's progress event. -/
theorem processPart_ladder_exhausted (max_gb : Rat) (env : PartEnv)
    (index total : Nat) (tr : EnforceTrace)
    (hc : env.cancelBeforePart = false)
    (hover : gb_to_bytes max_gb < env.size)
    (d : Rat) (hd : env.probeDuration = .ok d) (hdpos : 0 < d)
    (b : Int) (hb : env.bitrateEnc = .fileMade b)
    (hbover : gb_to_bytes max_gb < b)
    (hcan : ∀ c ∈ [23, 26, 28], env.cancelBeforeCrf c = false)
    (henc : ∀ c ∈ [23, 26, 28], ∃ s, env.crfEnc c = .fileMade s ∧
      gb_to_bytes max_gb < s) :
    processPart max_gb index total env tr
      = .ok (acceptOriginal env index total tr) ∧
    (acceptOriginal env index total tr).commits = tr.commits := by
  have hl := crfLadder_all_oversize (gb_to_bytes max_gb) env [23, 26, 28]
    hcan henc
  refine ⟨?_, rfl⟩
  rw [processPart_oversize max_gb index total env tr hc hover d hd hdpos]
  simp only [hb, if_pos hbover, hl]

/-- C2 counterexample: a 2 GB part, limit 1 GB, where the bitrate pass
and all three CRF rungs each write a 1.5 GB file.  The claim says the
last rung's file is committed over the original; the code instead
unlinks it and keeps the original — no commit happens. -/
theorem reencode_ladder_cex :
    reencode_oversize [ladderPart] 1 = .ok ⟨["part00"], [(1, 1)], []⟩ := by
  have hover : gb_to_bytes 1 < (1500000000 : Int) := by
    rw [gb_to_bytes_one]; norm_num
  have hsp := processPart_oversize 1 1 1 ladderPart ⟨[], [], []⟩ rfl
    (by rw [gb_to_bytes_one]; norm_num [ladderPart]) 10 rfl (by norm_num)
  have hl := crfLadder_all_oversize (gb_to_bytes 1) ladderPart [23, 26, 28]
    (fun c _ => rfl) (fun c _ => ⟨1500000000, rfl, hover⟩)
  have hpp : processPart 1 1 1 ladderPart ⟨[], [], []⟩
      = .ok (acceptOriginal ladderPart 1 1 ⟨[], [], []⟩) := by
    rw [hsp]
    have hbe : ladderPart.bitrateEnc = .fileMade 1500000000 := rfl
    simp only [hbe]
    rw [if_pos hover, hl]
  rw [reencode_oversize]
  simp only [List.length_cons, List.length_nil, Nat.zero_add]
  rw [enforceGo, hpp]
  rfl

/-- Witness for the amended C2, at the same concrete scenario. -/
theorem processPart_ladder_exhausted_witness :
    processPart 1 1 1 ladderPart ⟨[], [], []⟩
      = .ok (acceptOriginal ladderPart 1 1 ⟨[], [], []⟩) ∧
    (acceptOriginal ladderPart 1 1 (⟨[], [], []⟩ : EnforceTrace)).commits
      = ([] : List (String × Int)) :=
  processPart_ladder_exhausted 1 ladderPart 1 1 ⟨[], [], []⟩ rfl
    (by rw [gb_to_bytes_one]; norm_num [ladderPart]) 10 rfl (by norm_num)
    1500000000 rfl (by rw [gb_to_bytes_one]; norm_num)
    (fun c _ => rfl)
    (fun c _ => ⟨1500000000, rfl, by rw [gb_to_bytes_one]; norm_num⟩)

/-- C3 (amended): for an oversize part, when the bitrate-targeted encode
exits zero but produces no temporary file, the enforcer accepts the
original part unmodified, emits its progress event, and continues with
the remaining parts; but when the encode process itself exits non-zero,
the `CalledProcessError` is not caught — the whole enforcement pass
aborts with that error. -/
theorem enforceGo_encode_failure (max_gb : Rat) (env : PartEnv)
    (index total : Nat) (tr : EnforceTrace) (rest : List PartEnv)
    (hc : env.cancelBeforePart = false)
    (hover : gb_to_bytes max_gb < env.size)
    (d : Rat) (hd : env.probeDuration = .ok d) (hdpos : 0 < d) :
    (env.bitrateEnc = .noFile →
      enforceGo max_gb total index (env :: rest) tr
        = enforceGo max_gb total (index + 1) rest
            (acceptOriginal env index total tr)) ∧
    (∀ c : Int, env.bitrateEnc = .procFail c →
      enforceGo max_gb total index (env :: rest) tr
        = .error (.processFailed c)) := by
  have hsp := processPart_oversize max_gb index total env tr hc hover d hd
    hdpos
  constructor
  · intro hb
    rw [enforceGo, hsp]
    simp only [hb]
  · intro c hb
    rw [enforceGo, hsp]
    simp only [hb]

/-- C3 counterexample: a single oversize part whose bitrate-targeted
encode exits non-zero.  The claim says the enforcer accepts the original
and continues (the run would return the part list); the code instead
aborts the whole enforcement pass with the process error — no part list,
no progress event. -/
theorem reencode_procfail_cex :
    reencode_oversize [failPart] 1 = .error (.processFailed 1) := by
  have hsp := processPart_oversize 1 1 1 failPart ⟨[], [], []⟩ rfl
    (by rw [gb_to_bytes_one]; norm_num [failPart]) 10 rfl (by norm_num)
  rw [reencode_oversize]
  simp only [List.length_cons, List.length_nil, Nat.zero_add]
  rw [enforceGo, hsp]
  rfl

/-- Witness for the amended C3: the no-file case keeps the original and
continues; the non-zero-exit case aborts the pass. -/
theorem enforceGo_encode_failure_witness :
    enforceGo 1 1 1 [noFilePart] ⟨[], [], []⟩
      = enforceGo 1 1 (1 + 1) [] (acceptOriginal noFilePart 1 1 ⟨[], [], []⟩) ∧
    enforceGo 1 1 1 [failPart] ⟨[], [], []⟩ = .error (.processFailed 1) :=
  ⟨(enforceGo_encode_failure 1 noFilePart 1 1 ⟨[], [], []⟩ [] rfl
      (by rw [gb_to_bytes_one]; norm_num [noFilePart]) 10 rfl (by norm_num)).1
      rfl,
   (enforceGo_encode_failure 1 failPart 1 1 ⟨[], [], []⟩ [] rfl
      (by rw [gb_to_bytes_one]; norm_num [failPart]) 10 rfl (by norm_num)).2
      1 rfl⟩

end VideoSplitter
